import Mathlib

/-!
Verification development for the Etl_Service repository.

The JavaScript source is shallowly embedded: JS numbers are modelled as
exact rationals (`ℚ`), JS strings as `String`, absent values (`undefined`,
`null`) as explicit constructors of a `JsValue` type, and the stateful
orchestration loops as explicit state-passing recursive functions.
`Date.now()` instants are modelled as natural-number milliseconds.
-/

set_option maxRecDepth 4096

namespace EtlService

/-- A JavaScript runtime value, restricted to the shapes the pipeline
manipulates.  `undefined` is JS `undefined`, `jnull` is JS `null`, `num` holds a
finite JS number (modelled exactly as a rational), `date` is a JS `Date`
carrying its epoch-milliseconds value, and `obj` is a plain object as an
association list in insertion order. -/
inductive JsValue where
  | undefined : JsValue
  | jnull : JsValue
  | num : ℚ → JsValue
  | str : String → JsValue
  | bool : Bool → JsValue
  | date : ℚ → JsValue
  | obj : List (String × JsValue) → JsValue
  deriving Repr, BEq

/-- JS property access `o[k]`: the bound value for the first matching key,
`undefined` when the key is absent or the receiver is not an object. -/
def jsGet (v : JsValue) (k : String) : JsValue :=
  match v with
  | .obj fields =>
      match fields.lookup k with
      | some w => w
      | none => .undefined
  | _ => .undefined

/-- JS optional chaining `o?.k`: yields `undefined` when the receiver is
`null` or `undefined`, property access otherwise. -/
def jsGetOpt (v : JsValue) (k : String) : JsValue :=
  match v with
  | .undefined => .undefined
  | .jnull => .undefined
  | w => jsGet w k

/-- Iterated optional chaining along a path, e.g. `coin.quotes?.USD?.price`. -/
def jsGetPath (v : JsValue) : List String → JsValue
  | [] => v
  | k :: ks => jsGetPath (jsGetOpt v k) ks

/-- Greedily read a decimal-digit prefix: returns the value read, the number
of digits consumed, and the remaining characters. -/
def readDigits : List Char → ℕ → ℕ → ℕ × ℕ × List Char
  | [], acc, n => (acc, n, [])
  | c :: cs, acc, n =>
      if c.isDigit then readDigits cs (acc * 10 + (c.toNat - 48)) (n + 1)
      else (acc, n, c :: cs)

/-- Read an optional sign character; `true` means negative. -/
def readSign : List Char → Bool × List Char
  | '-' :: cs => (true, cs)
  | '+' :: cs => (false, cs)
  | cs => (false, cs)

/-- Read an optional exponent suffix (after `e`/`E`); a malformed exponent
with no digits is ignored, as in JS `parseFloat ("1e")`. -/
def readExponent (cs : List Char) : ℤ :=
  let (eneg, r') := readSign cs
  let (ev, ne, _) := readDigits r' 0 0
  if ne = 0 then 0 else if eneg then -(ev : ℤ) else (ev : ℤ)

/-- Model of the JS `parseFloat` primitive on the decimal forms the pipeline
feeds it: an optional sign, an integer part, an optional fractional part and
an optional exponent, parsed as the longest valid prefix (trailing junk is
ignored, as in JS).  Returns `none` when no digit can be read, matching the
`NaN` result of `parseFloat`.  The value `±(ip + fp·10^-nFrac)·10^e` is
assembled with `mkRat` so the definition evaluates by kernel reduction. -/
def jsParseFloat (s : String) : Option ℚ :=
  let cs := s.toList
  let (neg, r0) := readSign cs
  let (ip, nInt, r1) := readDigits r0 0 0
  let (fp, nFrac, r2) :=
    match r1 with
    | '.' :: r => readDigits r 0 0
    | r => (0, 0, r)
  if nInt = 0 ∧ nFrac = 0 then none
  else
    let e : ℤ :=
      match r2 with
      | 'e' :: r => readExponent r
      | 'E' :: r => readExponent r
      | _ => 0
    let mantNum : ℕ := ip * 10 ^ nFrac + fp
    let sNum : ℤ := if neg then -(mantNum : ℤ) else (mantNum : ℤ)
    if 0 ≤ e then some (mkRat (sNum * ((10 ^ e.toNat : ℕ) : ℤ)) (10 ^ nFrac))
    else some (mkRat sNum (10 ^ nFrac * 10 ^ (-e).toNat))

/-- The character class removed by `value.replace(/[,$\s]/g, '')` in
`convertToNumber` (commas, dollar signs, whitespace). -/
def isStrippedChar (c : Char) : Bool :=
  c = ',' ∨ c = '$' ∨ c = ' ' ∨ c = '\t' ∨ c = '\n' ∨ c = '\r'

/-- `Utility/converters.js` `convertToNumber`: returns `0` for `undefined`,
`null` and the empty string; a number is returned unchanged; a string is
cleaned of commas, dollar signs and whitespace and parsed with `parseFloat`
(`0` when the parse fails); every other value yields `0`. -/
def convertToNumber (v : JsValue) : ℚ :=
  match v with
  | .undefined => 0
  | .jnull => 0
  | .str "" => 0
  | .num q => q
  | .str s =>
      let cleaned := String.mk (s.toList.filter (fun c => ¬ isStrippedChar c))
      match jsParseFloat cleaned with
      | none => 0
      | some q => q
  | _ => 0

/-! ## Schema drift: field-name similarity (`Utility/schemaDrift.js`) -/

/-- The static `columnAliases` table of `schemaDrift.js`. -/
def columnAliases : List (String × String) :=
  [("time", "timestamp"),
   ("ticker", "symbol"),
   ("usd_price", "price_usd"),
   ("tx_volume", "volume_24h"),
   ("created_at", "timestamp"),
   ("price_timestamp", "timestamp")]

/-- `normalize` inside `calculateSimilarity`: lowercase, then drop every
underscore and hyphen (`str.toLowerCase().replace(/[_-]/g, '')`), as a
character list. -/
def normalizeField (s : String) : List Char :=
  (s.toList.map Char.toLower).filter (fun c => ¬ (c = '_' ∨ c = '-'))

/-- JS `a.includes(b)` on strings: `b` occurs contiguously inside `a`
(every string includes the empty string). -/
def includesChars (hay needle : List Char) : Bool :=
  match hay with
  | [] => needle.isEmpty
  | _ :: t => needle.isPrefixOf hay || includesChars t needle

/-- The Levenshtein recurrence with explicit fuel (structural recursion, so
it evaluates by kernel reduction).  Each recursive call shrinks the combined
length by at least one, so fuel `|xs| + |ys|` always suffices and the
`fuel = 0` case is reached only with two empty lists. -/
def levFuel : ℕ → List Char → List Char → ℕ
  | 0, _, _ => 0
  | _ + 1, [], ys => ys.length
  | _ + 1, x :: xs, [] => (x :: xs).length
  | fuel + 1, x :: xs, y :: ys =>
      if x = y then levFuel fuel xs ys
      else 1 + min (levFuel fuel xs (y :: ys))
        (min (levFuel fuel (x :: xs) ys) (levFuel fuel xs ys))

/-- Levenshtein edit distance between two character lists, as computed by
the `fast-levenshtein` package used in `schemaDrift.js` (unit-cost
insertions, deletions and substitutions). -/
def lev (xs ys : List Char) : ℕ := levFuel (xs.length + ys.length) xs ys

/-- `calculateSimilarity` of `schemaDrift.js`: alias pairs score `1.0`;
otherwise normalize both names, score `0.9` when one contains the other,
`1.0` when both normalize to empty, and otherwise
`1 − lev(norm1, norm2) / max(|norm1|, |norm2|)`. -/
def calculateSimilarity (field1 field2 : String) : ℚ :=
  if columnAliases.lookup field1 = some field2 ∨
      columnAliases.lookup field2 = some field1 then 1
  else
    let norm1 := normalizeField field1
    let norm2 := normalizeField field2
    if includesChars norm1 norm2 || includesChars norm2 norm1 then mkRat 9 10
    else
      let maxLen := max norm1.length norm2.length
      if maxLen = 0 then 1
      else 1 - (lev norm1 norm2 : ℚ) / (maxLen : ℚ)

/-! ## Schema drift detection and the CSV row mapper -/

/-- A field mapping `{from, to, confidence}` produced by `findMappings`. -/
structure Mapping where
  fromField : String
  toField : String
  confidence : ℚ
  deriving Repr, DecidableEq

/-- `parseFloat(c.toFixed(3))`: round to three decimals, half away from
zero for the positive confidences that occur here; `round(c·1000)/1000`
computed as `⌊(2000·num + den) / (2·den)⌋ / 1000` so it evaluates by kernel
reduction. -/
def roundTo3 (c : ℚ) : ℚ :=
  mkRat (Int.fdiv (2000 * c.num + (c.den : ℤ)) (2 * (c.den : ℤ))) 1000

/-- `bestScore.toFixed(2)` as a rational, used only in the mapping log. -/
def roundTo2 (c : ℚ) : ℚ :=
  mkRat (Int.fdiv (200 * c.num + (c.den : ℤ)) (2 * (c.den : ℤ))) 100

/-- `CONFIDENCE_THRESHOLDS.AUTO_MAP = 0.8`. -/
def AUTO_MAP : ℚ := mkRat 4 5

/-- `CONFIDENCE_THRESHOLDS.QUARANTINE = 0.5`. -/
def QUARANTINE : ℚ := mkRat 1 2

/-- `CONFIDENCE_THRESHOLDS.SKIP = 0.5`. -/
def SKIP : ℚ := mkRat 1 2

/-- A source schema snapshot: field name to `typeof` tag, in object order
(the shape produced by `extractSchema`). -/
def SchemaSnap : Type := List (String × String)

/-- Object keys of a schema snapshot. -/
def schemaKeys (s : SchemaSnap) : List String := s.map Prod.fst

/-- Insertion of a string into a `≤`-sorted list (structural model of the
JS `Array.sort()` on the distinct key lists compared below). -/
def insertSorted (x : String) : List String → List String
  | [] => [x]
  | y :: ys => if x ≤ y then x :: y :: ys else y :: insertSorted x ys

/-- Sort a list of strings (insertion sort). -/
def sortStrings (l : List String) : List String := l.foldr insertSorted []

/-- `schemasEqual` of `schemaDrift.js`: sorted key lists coincide and each
key maps to the same type tag. -/
def schemasEqual (s1 s2 : SchemaSnap) : Bool :=
  let k1 := sortStrings (schemaKeys s1)
  let k2 := sortStrings (schemaKeys s2)
  k1 == k2 && k1.all (fun k => List.lookup k s1 == List.lookup k s2)

/-- The inner loop of `findMappings`: scan candidate added fields, keeping
the first candidate whose similarity strictly exceeds the best so far
(`bestMatch`/`bestConfidence` start as `null`/`0`). -/
def findBest (missing : String) : List String → Option String × ℚ → Option String × ℚ
  | [], acc => acc
  | added :: rest, (bm, bc) =>
      let c := calculateSimilarity missing added
      if c > bc then findBest missing rest (some added, c)
      else findBest missing rest (bm, bc)

/-- `findMappings` of `schemaDrift.js`: for each field of the old schema
missing from the new one, the best-similarity added field (when any
candidate scored above 0), with the confidence rounded to three decimals. -/
def findMappings (oldSchema newSchema : SchemaSnap) : List Mapping :=
  let oldFields := schemaKeys oldSchema
  let newFields := schemaKeys newSchema
  let missingFields := oldFields.filter (fun f => !newFields.contains f)
  let addedFields := newFields.filter (fun f => !oldFields.contains f)
  missingFields.filterMap (fun missing =>
    match findBest missing addedFields (none, 0) with
    | (some bestMatch, bestConfidence) =>
        some ⟨missing, bestMatch, roundTo3 bestConfidence⟩
    | (none, _) => none)

/-- The drift result `{applied_mappings, warnings, quarantined_mappings,
skipped_mappings, schema_version}`; the quarantine and skip lists are absent
(here: empty) when no drift was detected. -/
structure DriftResult where
  applied_mappings : List Mapping
  warnings : List Mapping
  quarantined_mappings : List Mapping
  skipped_mappings : List Mapping
  schema_version : ℕ
  deriving Repr

/-- `detectDrift` of `schemaDrift.js` (confidence-tier variant), with the
detector state passed explicitly: `prev` is `knownSchemas.get(source)` and
`schemaVersion` the current version counter.  On structural change the
version is bumped and the mappings are partitioned by the confidence
thresholds. -/
def detectDrift (prev : Option SchemaSnap) (schemaVersion : ℕ) (cur : SchemaSnap) :
    DriftResult :=
  match prev with
  | none => ⟨[], [], [], [], schemaVersion⟩
  | some previousSchema =>
      if schemasEqual cur previousSchema then ⟨[], [], [], [], schemaVersion⟩
      else
        let mappings := findMappings previousSchema cur
        let applied := mappings.filter (fun m => AUTO_MAP ≤ m.confidence)
        let quarantined := mappings.filter
          (fun m => QUARANTINE ≤ m.confidence ∧ m.confidence < AUTO_MAP)
        let skipped := mappings.filter (fun m => m.confidence < SKIP)
        ⟨applied, [], quarantined, skipped, schemaVersion + 1⟩

/-- The unified target field list of `schemaDrift.js`. -/
def unifiedFields : List String :=
  ["symbol", "name", "price_usd", "volume_24h", "market_cap",
   "percent_change_24h", "timestamp", "source"]

/-- `normalizeColName`: lowercase, then drop whitespace and underscores
(`col.toLowerCase().replace(/[\s_]/g, '')`). -/
def normalizeColName (s : String) : List Char :=
  (s.toList.map Char.toLower).filter
    (fun c => !(c = ' ' ∨ c = '\t' ∨ c = '\n' ∨ c = '\r' ∨ c = '_'))

/-- `convertValueType` of `schemaDrift.js`: `undefined`/`null`/`''` become
`null`; the four numeric unified fields are cleaned of `$`, commas and
whitespace and parsed (`null` when the parse fails — `parseFloat` of a
non-string non-number is `NaN` here); `timestamp` passes through; any other
field trims strings. -/
def convertValueType (field : String) (value : JsValue) : JsValue :=
  if value == .undefined || value == .jnull || value == .str "" then .jnull
  else if field = "price_usd" ∨ field = "market_cap" ∨ field = "volume_24h" ∨
      field = "percent_change_24h" then
    match value with
    | .num q => .num q
    | .str s =>
        let cleaned := String.mk (s.toList.filter (fun c => !isStrippedChar c))
        match jsParseFloat cleaned with
        | none => .jnull
        | some q => .num q
    | _ => .jnull
  else if field = "timestamp" then value
  else
    match value with
    | .str s => .str s.trim
    | v => v

/-- JS object assignment `o[k] = v`: overwrite in place when the key
exists, append otherwise. -/
def objSet (o : List (String × JsValue)) (k : String) (v : JsValue) :
    List (String × JsValue) :=
  if o.any (fun p => p.1 == k) then o.map (fun p => if p.1 == k then (k, v) else p)
  else o ++ [(k, v)]

/-- The alias pass of `mapCsvRowToUnifiedSchema`: for each
`(csvCol, target)` alias, when the row carries `csvCol` (not `undefined`),
write the converted value into the mapped row and delete `csvCol` from the
source row.  The state is `(mapped, row)`. -/
def aliasPass :
    List (String × String) →
    List (String × JsValue) × List (String × JsValue) →
    List (String × JsValue) × List (String × JsValue)
  | [], st => st
  | (csvCol, target) :: rest, (mapped, row) =>
      match List.lookup csvCol row with
      | some v =>
          if v == .undefined then aliasPass rest (mapped, row)
          else aliasPass rest
            (objSet mapped target (convertValueType target v),
             row.filter (fun p => !(p.1 == csvCol)))
      | none => aliasPass rest (mapped, row)

/-- The fuzzy score of the row mapper:
`1 − lev(norm(effectiveCol), norm(target)) / max(|effectiveCol|, |target| or 1)`
(note: the denominator uses the unnormalized lengths, unlike
`calculateSimilarity`). -/
def scoreRow (effectiveCol targetField : String) : ℚ :=
  let distance := lev (normalizeColName effectiveCol) (normalizeColName targetField)
  let maxLen := max effectiveCol.length
    (if targetField.length = 0 then 1 else targetField.length)
  mkRat ((maxLen : ℤ) - (distance : ℤ)) maxLen

/-- The inner loop of the row mapper: best-scoring unified field under
strict improvement, starting from `(null, 0)`. -/
def bestUnifiedMatch (effectiveCol : String) :
    List String → Option String × ℚ → Option String × ℚ
  | [], acc => acc
  | t :: rest, (bm, bs) =>
      let score := scoreRow effectiveCol t
      if score > bs then bestUnifiedMatch effectiveCol rest (some t, score)
      else bestUnifiedMatch effectiveCol rest (bm, bs)

/-- Best unified-field match for one CSV column: the alias table supplies
the effective column name (`columnAliases[csvCol] || csvCol`), then every
unified field is scored. -/
def bestUnifiedScore (csvCol : String) : Option String × ℚ :=
  let effectiveCol := (columnAliases.lookup csvCol).getD csvCol
  bestUnifiedMatch effectiveCol unifiedFields (none, 0)

/-- One step of the row-mapping loop over the remaining CSV columns: the
column's value is written under the best-matching unified field only when
the best score reaches `AUTO_MAP` (0.8); below-threshold columns (both the
quarantine tier and the skip tier) contribute nothing. -/
def phase2Step (mapped : List (String × JsValue)) (col : String × JsValue) :
    List (String × JsValue) :=
  if AUTO_MAP ≤ (bestUnifiedScore col.1).2 then
    match (bestUnifiedScore col.1).1 with
    | some bestMatch => objSet mapped bestMatch (convertValueType bestMatch col.2)
    | none => mapped
  else mapped

/-- `mapCsvRowToUnifiedSchema` (mapped row only; the textual mapping log is
not modelled): alias pass, then the fuzzy loop over the remaining columns. -/
def mapCsvRowToUnifiedSchema (row : List (String × JsValue)) :
    List (String × JsValue) :=
  let (mapped, rest) := aliasPass columnAliases ([], row)
  rest.foldl phase2Step mapped

/-! ## Token-bucket rate limiter (`Utility/rateLimiter.js`) -/

/-- Per-source token-bucket state, as created in the `rateLimiters` map:
`limit` is `requestsPerMinute`, `interval` is fixed at 60000 ms, `tokens`
starts at `burstCapacity`.  Tokens are an integer (the code guards with
`tokens <= 0` and only decrements after that guard fails). -/
structure Limiter where
  limit : ℕ
  burstCapacity : ℕ
  interval : ℕ
  tokens : ℤ
  lastRefill : ℕ
  retryBackoffMs : ℕ
  deriving Repr, DecidableEq

/-- The limiter built for a source at module initialization time `now`:
full burst, fixed one-minute interval. -/
def initLimiter (requestsPerMinute burstCapacity retryBackoffMs now : ℕ) : Limiter :=
  { limit := requestsPerMinute
    burstCapacity := burstCapacity
    interval := 60000
    tokens := (burstCapacity : ℤ)
    lastRefill := now
    retryBackoffMs := retryBackoffMs }

/-- The lazy refill at the top of `rateLimitedRequest`:
`tokensToAdd = Math.floor((timeSinceRefill / interval) * limit)`, which for
nonnegative integer inputs is `(timeSinceRefill * limit) / interval` in
natural division; when positive, tokens are topped up, capped at
`burstCapacity`, and `lastRefill` moves to `now`. -/
def refill (l : Limiter) (now : ℕ) : Limiter :=
  let timeSinceRefill := now - l.lastRefill
  let tokensToAdd := timeSinceRefill * l.limit / l.interval
  if 0 < tokensToAdd then
    { l with tokens := min (l.burstCapacity : ℤ) (l.tokens + (tokensToAdd : ℤ))
             lastRefill := now }
  else l

/-- The in-memory TTL cache entry for a source: payload and `expiresAt`.
`cacheGet` misses when `Date.now() > expiresAt`. -/
def cacheGet (cache : Option (ℕ × ℕ)) (now : ℕ) : Option ℕ :=
  match cache with
  | none => none
  | some (v, exp) => if exp < now then none else some v

/-- What a `rateLimitedRequest` invocation produced: the cached payload, or
an admitted HTTP request (which consumed one token). -/
inductive FetchOutcome where
  | fromCache : ℕ → FetchOutcome
  | httpRequest : FetchOutcome
  deriving Repr, DecidableEq

/-- `rateLimitedRequest` of `rateLimiter.js`, with fuel bounding the
recursion depth (`none` = fuel exhausted): refill; if no tokens remain,
return the cached payload when fresh, otherwise sleep `retryBackoffMs` and
retry recursively (`return rateLimitedRequest(source, url)`); with a token
available, consume exactly one and perform the request.  The second
component of the result counts the backoff sleeps taken. -/
def rateLimitedRequest :
    ℕ → Limiter → Option (ℕ × ℕ) → ℕ → Option (FetchOutcome × ℕ × Limiter)
  | 0, _, _, _ => none
  | fuel + 1, l, cache, now =>
      let l' := refill l now
      if l'.tokens ≤ 0 then
        match cacheGet cache now with
        | some v => some (.fromCache v, 0, l')
        | none =>
            match rateLimitedRequest fuel l' cache (now + l'.retryBackoffMs) with
            | none => none
            | some (o, r, l'') => some (o, r + 1, l'')
      else
        some (.httpRequest, 0, { l' with tokens := l'.tokens - 1 })

/-- The token effect of one admission attempt at time `now`: refill, then
consume one token when one is available (the throttled path leaves the
bucket unchanged; its later retries are further `acquireStep`s at later
times). -/
def acquireStep (l : Limiter) (now : ℕ) : Limiter :=
  let l' := refill l now
  if l'.tokens ≤ 0 then l' else { l' with tokens := l'.tokens - 1 }

/-! ## The unified-schema validator (`Schems/unifiedSchema.js`, a Joi
object schema).  Joi's combinator semantics are third-party; each `joi…`
definition models the documented behaviour of the combinator named in its
doc comment. -/

/-- Read exactly `n` decimal digits. -/
def readDigitsN : ℕ → List Char → ℕ → Option (ℕ × List Char)
  | 0, cs, acc => some (acc, cs)
  | n + 1, c :: cs, acc =>
      if c.isDigit then readDigitsN n cs (acc * 10 + (c.toNat - 48)) else none
  | _ + 1, [], _ => none

/-- Expect one specific character. -/
def expectChar (c : Char) : List Char → Option (List Char)
  | x :: r => if x = c then some r else none
  | [] => none

/-- Days from the Unix epoch to civil date `y-mo-d` (Gregorian,
days-from-civil algorithm). -/
def daysFromCivil (y mo d : ℕ) : ℤ :=
  let yAdj : ℤ := if mo ≤ 2 then (y : ℤ) - 1 else (y : ℤ)
  let era : ℤ := Int.fdiv yAdj 400
  let yoe : ℤ := yAdj - era * 400
  let mp : ℤ := ((mo : ℤ) + 9) % 12
  let doy : ℤ := Int.fdiv (153 * mp + 2) 5 + (d : ℤ) - 1
  let doe : ℤ := yoe * 365 + Int.fdiv yoe 4 - Int.fdiv yoe 100 + doy
  era * 146097 + doe - 719468

/-- Seconds from the epoch for a civil date-time. -/
def epochSec (y mo d h mi s : ℕ) : ℤ :=
  daysFromCivil y mo d * 86400 + (h : ℤ) * 3600 + (mi : ℤ) * 60 + (s : ℤ)

/-- Timezone designator: `Z`, `±HH:MM`, `±HHMM`, `±HH` or nothing; result is
the offset in minutes. -/
def parseTz : List Char → Option (ℤ × List Char)
  | [] => some (0, [])
  | 'Z' :: r => some (0, r)
  | '+' :: r =>
      (do
        let (h, r') ← readDigitsN 2 r 0
        match r' with
        | ':' :: r'' =>
            (readDigitsN 2 r'' 0).map (fun p => (((h * 60 + p.1 : ℕ) : ℤ), p.2))
        | c :: cs =>
            if c.isDigit then
              (readDigitsN 2 (c :: cs) 0).map
                (fun p => (((h * 60 + p.1 : ℕ) : ℤ), p.2))
            else some (((h * 60 : ℕ) : ℤ), c :: cs)
        | [] => some (((h * 60 : ℕ) : ℤ), []))
  | '-' :: r =>
      (do
        let (h, r') ← readDigitsN 2 r 0
        match r' with
        | ':' :: r'' =>
            (readDigitsN 2 r'' 0).map (fun p => (-((h * 60 + p.1 : ℕ) : ℤ), p.2))
        | c :: cs =>
            if c.isDigit then
              (readDigitsN 2 (c :: cs) 0).map
                (fun p => (-((h * 60 + p.1 : ℕ) : ℤ), p.2))
            else some (-((h * 60 : ℕ) : ℤ), c :: cs)
        | [] => some (-((h * 60 : ℕ) : ℤ), []))
  | _ => none

/-- An ISO-8601 calendar date or date-time (the practical subset of Joi's
`date.iso` format: `YYYY-MM-DD`, optionally `T HH:MM[:SS[.f…]]` and a
timezone designator; fractional seconds of any precision are tolerated),
converted to epoch milliseconds. -/
def parseIso (s : String) : Option ℚ := do
  let cs := s.toList
  let (y, r1) ← readDigitsN 4 cs 0
  let r2 ← expectChar '-' r1
  let (mo, r3) ← readDigitsN 2 r2 0
  let r4 ← expectChar '-' r3
  let (d, r5) ← readDigitsN 2 r4 0
  if ¬ (1 ≤ mo ∧ mo ≤ 12 ∧ 1 ≤ d ∧ d ≤ 31) then none
  else
    match r5 with
    | [] => some (mkRat (epochSec y mo d 0 0 0 * 1000) 1)
    | 'T' :: r6 => do
        let (h, r7) ← readDigitsN 2 r6 0
        let r8 ← expectChar ':' r7
        let (mi, r9) ← readDigitsN 2 r8 0
        let (sec, fracNum, fracDen, r10) ←
          (match r9 with
          | ':' :: ra => do
              let (sec, rb) ← readDigitsN 2 ra 0
              match rb with
              | '.' :: rc =>
                  let (fv, fn, rd) := readDigits rc 0 0
                  if fn = 0 then none else some (sec, fv, 10 ^ fn, rd)
              | _ => some (sec, 0, 1, rb)
          | _ => some (0, 0, 1, r9) :
            Option (ℕ × ℕ × ℕ × List Char))
        let (off, r11) ← parseTz r10
        if ¬ (h ≤ 23 ∧ mi ≤ 59 ∧ sec ≤ 59 ∧ r11.isEmpty) then none
        else
          some (mkRat ((epochSec y mo d h mi sec - off * 60) * 1000 * (fracDen : ℤ)
            + (fracNum : ℤ) * 1000) fracDen)
    | _ => none

/-- A strict decimal-number string as coerced by `Joi.number()` (the whole
string must be a valid signed decimal, optionally with an exponent). -/
def jsParseNumberStrict (s : String) : Option ℚ :=
  let cs := s.toList
  let (neg, r0) := readSign cs
  let (ip, nInt, r1) := readDigits r0 0 0
  let (fp, nFrac, r2) :=
    match r1 with
    | '.' :: r => readDigits r 0 0
    | r => (0, 0, r)
  if nInt = 0 ∧ nFrac = 0 then none
  else
    let mantNum : ℕ := ip * 10 ^ nFrac + fp
    let sNum : ℤ := if neg then -(mantNum : ℤ) else (mantNum : ℤ)
    match r2 with
    | [] => some (mkRat (sNum * 1) (10 ^ nFrac))
    | 'e' :: r =>
        let (eneg, r') := readSign r
        let (ev, ne, rr) := readDigits r' 0 0
        if ne = 0 ∨ ¬ rr.isEmpty then none
        else if eneg then some (mkRat sNum (10 ^ nFrac * 10 ^ ev))
        else some (mkRat (sNum * ((10 ^ ev : ℕ) : ℤ)) (10 ^ nFrac))
    | 'E' :: r =>
        let (eneg, r') := readSign r
        let (ev, ne, rr) := readDigits r' 0 0
        if ne = 0 ∨ ¬ rr.isEmpty then none
        else if eneg then some (mkRat sNum (10 ^ nFrac * 10 ^ ev))
        else some (mkRat (sNum * ((10 ^ ev : ℕ) : ℤ)) (10 ^ nFrac))
    | _ => none

/-- `Joi.string()`: strings only (no coercion from numbers), and the empty
string is rejected by default. -/
def joiString (v : JsValue) : Option String :=
  match v with
  | .str s => if s = "" then none else some s
  | _ => none

/-- `Joi.number()`: numbers pass; numeric strings are coerced when the
entire string is a valid decimal; everything else fails. -/
def joiNumber (v : JsValue) : Option ℚ :=
  match v with
  | .num q => some q
  | .str s => jsParseNumberStrict s
  | _ => none

/-- `Joi.number().min(0).allow(null)` on an optional key: absent or `null`
validates to an absent value; otherwise the number must be nonnegative. -/
def joiNumberMin0OrNull (v : JsValue) : Option (Option ℚ) :=
  match v with
  | .undefined => some none
  | .jnull => some none
  | w =>
      match joiNumber w with
      | some q => if 0 ≤ q then some (some q) else none
      | none => none

/-- `Joi.number().allow(null)` on an optional key. -/
def joiNumberOrNull (v : JsValue) : Option (Option ℚ) :=
  match v with
  | .undefined => some none
  | .jnull => some none
  | w => (joiNumber w).map some

/-- `Joi.date().iso()`: `Date` instances pass (their epoch-ms value is the
validated instant); strings must be in ISO 8601 format; any other value —
in particular a plain epoch number — is rejected with a format error. -/
def joiDateIso (v : JsValue) : Option ℚ :=
  match v with
  | .date ms => some ms
  | .str s => parseIso s
  | _ => none

/-- `Joi.object()`: plain objects only. -/
def joiObject (v : JsValue) : Option (List (String × JsValue)) :=
  match v with
  | .obj f => some f
  | _ => none

/-- A candidate record presented to `unifiedSchema.validate`. -/
structure RecordInput where
  symbol : JsValue
  name : JsValue
  price_usd : JsValue
  volume_24h : JsValue
  market_cap : JsValue
  percent_change_24h : JsValue
  timestamp : JsValue
  source : JsValue
  raw_data : JsValue
  deriving Repr

/-- A record as it leaves successful validation. -/
structure ValidRecord where
  symbol : String
  name : String
  price_usd : ℚ
  volume_24h : ℚ
  market_cap : Option ℚ
  percent_change_24h : Option ℚ
  timestamp : ℚ
  source : String
  raw_data : List (String × JsValue)
  deriving Repr

/-- The configured source identifiers accepted by
`Joi.string().valid('coinpaprika', 'coingecko', 'csv')`. -/
def validSources : List String := ["coinpaprika", "coingecko", "csv"]

/-- `unifiedSchema.validate(record)`: `symbol`, `name` required strings;
`price_usd` a required strictly positive number; `volume_24h` required with
`min(0)`; `market_cap` optional `min(0)` allowing null;
`percent_change_24h` optional allowing null; `timestamp` a required ISO
date; `source` restricted to the three configured identifiers; `raw_data` a
required object. -/
def validateUnified (r : RecordInput) : Option ValidRecord :=
  match joiString r.symbol with
  | none => none
  | some symbol =>
  match joiString r.name with
  | none => none
  | some name =>
  match joiNumber r.price_usd with
  | none => none
  | some price =>
  if 0 < price then
    match joiNumber r.volume_24h with
    | none => none
    | some vol =>
    if 0 ≤ vol then
      match joiNumberMin0OrNull r.market_cap with
      | none => none
      | some mc =>
      match joiNumberOrNull r.percent_change_24h with
      | none => none
      | some pct =>
      match joiDateIso r.timestamp with
      | none => none
      | some ts =>
      match joiString r.source with
      | none => none
      | some src =>
      if src ∈ validSources then
        match joiObject r.raw_data with
        | none => none
        | some raw =>
            some ⟨symbol, name, price, vol, mc, pct, ts, src, raw⟩
      else none
    else none
  else none

/-! ## The record loop of `processSourceWithCheckpoint` (watermark skip) -/

/-- Running tallies of the per-record loop: upserted records, records
skipped by the watermark (`skippedCount` is the length of `skipped`), and
the validation-error count. -/
structure LoadOutcome where
  processed : List ValidRecord
  skipped : List ValidRecord
  validationErrors : ℕ
  deriving Repr

/-- One record of a batch: validate against the unified schema (an error
increments `validationErrors` and moves on); a valid record whose timestamp
is `≤` the watermark is counted as skipped; otherwise it is upserted.  The
watermark is `null` (here `none`) for a fresh source, and JS
`if (watermark && …)` skips nothing then. -/
def processRecord (watermark : Option ℚ) (acc : LoadOutcome) (r : RecordInput) :
    LoadOutcome :=
  match validateUnified r with
  | none => { acc with validationErrors := acc.validationErrors + 1 }
  | some v =>
      match watermark with
      | some w =>
          if v.timestamp ≤ w then { acc with skipped := acc.skipped ++ [v] }
          else { acc with processed := acc.processed ++ [v] }
      | none => { acc with processed := acc.processed ++ [v] }

/-- The record loop over a fetched sequence. -/
def processRecords (watermark : Option ℚ) (records : List RecordInput) :
    LoadOutcome :=
  records.foldl (processRecord watermark) ⟨[], [], 0⟩

/-! ## The extractor record shapes (`Service/coinpaprika.js`,
`Service/csvSource.js`, `Utility/converters.js`) -/

/-- JS truthiness (`undefined`, `null`, `0`, `''` and `false` are falsy). -/
def jsTruthy (v : JsValue) : Bool :=
  match v with
  | .undefined => false
  | .jnull => false
  | .num q => !(q == 0)
  | .str s => !(s == "")
  | .bool b => b
  | .date _ => true
  | .obj _ => true

/-- JS `a || b`. -/
def jsOr (a b : JsValue) : JsValue := if jsTruthy a then a else b

/-- `x?.toUpperCase()` on the string values the pipeline feeds it
(`undefined`/`null` propagate; non-string receivers would throw in JS and
do not occur here). -/
def optToUpper (v : JsValue) : JsValue :=
  match v with
  | .undefined => .undefined
  | .jnull => .undefined
  | .str s => .str (String.mk (s.toList.map Char.toUpper))
  | w => w

/-- `convertToDate` of `Utility/converters.js`: `Date` instances pass
through; strings parse (moment's permissive parser, modelled on its ISO
subset) with the current date as fallback; numbers are epoch milliseconds;
anything else falls back to the current date (`now`). -/
def convertToDate (v : JsValue) (now : ℚ) : JsValue :=
  match v with
  | .date ms => .date ms
  | .str s =>
      match parseIso s with
      | some ms => .date ms
      | none => .date now
  | .num n => .date n
  | _ => .date now

/-- One coin of `fetchCoinPaprikaData`'s `.map`: every numeric field goes
through `convertToNumber` on the optionally-chained source path, so it is
always a present number. -/
def mapCoinPaprika (coin : JsValue) (now : ℚ) : RecordInput :=
  { symbol := jsOr (optToUpper (jsGet coin "symbol")) (.str "UNKNOWN")
    name := jsOr (jsGet coin "name") (.str "Unknown")
    price_usd := .num (convertToNumber (jsGetPath coin ["quotes", "USD", "price"]))
    volume_24h :=
      .num (convertToNumber (jsGetPath coin ["quotes", "USD", "volume_24h"]))
    market_cap :=
      .num (convertToNumber (jsGetPath coin ["quotes", "USD", "market_cap"]))
    percent_change_24h :=
      .num (convertToNumber (jsGetPath coin ["quotes", "USD", "percent_change_24h"]))
    timestamp := convertToDate (jsGet coin "last_updated") now
    source := .str "coinpaprika"
    raw_data := coin }

/-- `.toString().trim().toUpperCase()` on a CSV cell (CSV cells are
strings; other shapes do not occur there). -/
def jsToTrimUpper (v : JsValue) : String :=
  match v with
  | .str s => String.mk (s.trim.toList.map Char.toUpper)
  | _ => ""

/-- `.toString().trim()` on a CSV cell. -/
def jsToTrim (v : JsValue) : String :=
  match v with
  | .str s => s.trim
  | _ => ""

/-- One row of `fetchCSVData`: map the row to the unified shape, then build
`normalizedData`; each numeric field goes through `convertToNumber` on the
mapped (possibly absent) value. -/
def csvNormalize (row : List (String × JsValue)) (now : ℚ) : RecordInput :=
  let mapped := JsValue.obj (mapCsvRowToUnifiedSchema row)
  { symbol := .str (jsToTrimUpper (jsOr (jsGet mapped "symbol") (.str "UNKNOWN")))
    name := .str (jsToTrim (jsOr (jsGet mapped "name")
      (jsOr (jsGet mapped "symbol") (.str "Unknown"))))
    price_usd := .num (convertToNumber (jsGet mapped "price_usd"))
    volume_24h := .num (convertToNumber (jsGet mapped "volume_24h"))
    market_cap := .num (convertToNumber (jsGet mapped "market_cap"))
    percent_change_24h := .num (convertToNumber (jsGet mapped "percent_change_24h"))
    timestamp := convertToDate (jsGet mapped "timestamp") now
    source := .str "csv"
    raw_data := .obj row }

/-! ## The batch/checkpoint loop of `processSourceWithCheckpoint` and the
run-level status logic of `runETLPipeline` -/

/-- `BATCH_SIZE` of the orchestrator. -/
def BATCH_SIZE : ℕ := 5

/-- The `for (let i = lastIndex; i < data.length; i += BATCH_SIZE)` loop,
with the not-yet-processed suffix `rem = data[i..]` made explicit and fuel
bounding the iteration count (each iteration consumes at least one record,
so `|rem|` fuel always suffices).  `fails i` models the batch starting at
index `i` throwing (fault injection or a storage error).  A successful
batch appends the checkpoint save `i + batch.length`; a failing batch saves
nothing, stops the loop and reports its start index (the re-thrown error). -/
def runBatchesFuel (fails : ℕ → Bool) :
    ℕ → List α → ℕ → List (List α × ℕ) × Option ℕ
  | 0, _, _ => ([], none)
  | _ + 1, [], _ => ([], none)
  | fuel + 1, a :: t, i =>
      if fails i then ([], some i)
      else
        let rem := a :: t
        let batch := rem.take BATCH_SIZE
        ((batch, i + batch.length) ::
            (runBatchesFuel fails fuel (rem.drop BATCH_SIZE) (i + BATCH_SIZE)).1,
          (runBatchesFuel fails fuel (rem.drop BATCH_SIZE) (i + BATCH_SIZE)).2)

/-- The batch loop over `data` from checkpoint index `i`. -/
def runBatches (fails : ℕ → Bool) (data : List α) (i : ℕ) :
    List (List α × ℕ) × Option ℕ :=
  runBatchesFuel fails (data.drop i).length (data.drop i) i

/-- The per-source failure entries collected by `runETLPipeline`: each
source whose processing threw contributes one `{source, batchNum, …}` entry
to `allFailedBatches` (modelled as the failing batch's start index); `ckpt`
is the per-source checkpoint read at loop entry. -/
def allFailedBatches (ckpt : String → ℕ)
    (srcs : List (String × List α × (ℕ → Bool))) : List (String × ℕ) :=
  srcs.filterMap
    (fun s => ((runBatches s.2.2 s.2.1 (ckpt s.1)).2).map (fun fi => (s.1, fi)))

/-- The final run status of `runETLPipeline`. -/
inductive RunStatus where
  | success
  | partialSuccess
  | failed
  deriving Repr, DecidableEq, BEq

/-- `isPartialSuccess = allFailedBatches.length > 0`;
`status = isPartialSuccess ? 'partial_success' : 'success'`. -/
def runStatus (failedBatches : List (String × ℕ)) : RunStatus :=
  if failedBatches.isEmpty then .success else .partialSuccess

/-- `if (!isPartialSuccess) await clearCheckpoints(runId)`. -/
def checkpointsCleared (failedBatches : List (String × ℕ)) : Bool :=
  failedBatches.isEmpty

/-! ## Ordering of the run tail (`runETLPipeline` success path) -/

/-- The externally visible steps at the end of `runETLPipeline`, in program
order: store the run summary (line 319), update the Prometheus metrics,
write the run-ledger entry via `logETLRun` (line 338), and — only when no
batch failed — clear the run's checkpoints (lines 355–357). -/
inductive RunEvent where
  | writeSummary
  | observeMetrics
  | writeLedger
  | clearCheckpoints
  deriving Repr, DecidableEq, BEq

/-- The tail of `runETLPipeline` as an event trace, parameterized by
`isPartialSuccess`. -/
def runTailEvents (isPartialSuccess : Bool) : List RunEvent :=
  [.writeSummary, .observeMetrics, .writeLedger] ++
    (if isPartialSuccess then [] else [.clearCheckpoints])

/-- The legacy batch loop of `src/etl/orchestration.js` (the
`processSourceWithCheckpoint` variant without `runId`): the same slicing,
but the checkpoint saved after a batch is `i + batch.length - 1` — the
highest processed index — and per-record errors (including the artificial
failure) are caught inside the record loop, so every batch completes and
saves. -/
def runBatchesLegacyFuel : ℕ → List α → ℕ → List (List α × ℕ)
  | 0, _, _ => []
  | _ + 1, [], _ => []
  | fuel + 1, a :: t, i =>
      let rem := a :: t
      let batch := rem.take BATCH_SIZE
      (batch, i + batch.length - 1) ::
        runBatchesLegacyFuel fuel (rem.drop BATCH_SIZE) (i + BATCH_SIZE)

/-- The legacy batch loop over `data` from checkpoint index `i`. -/
def runBatchesLegacy (data : List α) (i : ℕ) : List (List α × ℕ) :=
  runBatchesLegacyFuel (data.drop i).length (data.drop i) i

example : calculateSimilarity "time" "timestamp" = 1 := by decide

example : calculateSimilarity "symbol" "symbol" = mkRat 9 10 := by decide

example : calculateSimilarity "volume" "volume_24h" = mkRat 9 10 := by decide

theorem levFuel_comm (f : ℕ) (xs ys : List Char) :
    levFuel f xs ys = levFuel f ys xs := by
  induction f generalizing xs ys with
  | zero => rfl
  | succ f ih =>
      cases xs with
      | nil => cases ys <;> simp [levFuel]
      | cons x xs' =>
        cases ys with
        | nil => simp [levFuel]
        | cons y ys' =>
          by_cases hxy : x = y
          · subst hxy
            simp only [levFuel, if_pos rfl]
            exact ih xs' ys'
          · have hyx : ¬ y = x := fun hh => hxy hh.symm
            simp only [levFuel, if_neg hxy, if_neg hyx]
            rw [ih xs' (y :: ys'), ih (x :: xs') ys', ih xs' ys']
            omega

theorem lev_comm (xs ys : List Char) : lev xs ys = lev ys xs := by
  unfold lev
  rw [Nat.add_comm, levFuel_comm]

/-- No entry of the `columnAliases` table maps a field name to itself. -/
theorem columnAliases_no_self (x : String) : columnAliases.lookup x ≠ some x := by
  intro h
  simp only [columnAliases, List.lookup] at h
  repeat' split at h
  all_goals simp_all

theorem isPrefixOf_refl_chars (l : List Char) : l.isPrefixOf l = true := by
  induction l with
  | nil => rfl
  | cons c t ih => simp [List.isPrefixOf, ih]

/-- Every character list contains itself, so the substring branch of
`calculateSimilarity` always fires on identical inputs. -/
theorem includesChars_self (l : List Char) : includesChars l l = true := by
  cases l with
  | nil => rfl
  | cons c t => simp [includesChars, isPrefixOf_refl_chars]

/-- C3 counterexample: the claim `s(x, x) = 1.0` is false at the concrete
field name `"symbol"`: the normalized name contains itself, so the substring
branch fires first and `calculateSimilarity "symbol" "symbol" = 0.9 ≠ 1.0`. -/
theorem c3_counterexample :
    calculateSimilarity "symbol" "symbol" = mkRat 9 10 ∧
    calculateSimilarity "symbol" "symbol" ≠ 1 := by
  constructor <;> decide

/-- C3 (amended): the field-name similarity function is symmetric
(`s(a, b) = s(b, a)` for all field names), and on identical field names its
value is 0.9, not 1.0: the substring check runs before the Levenshtein
branch and succeeds on equal normalized names, and no alias maps a field
name to itself. -/
theorem c3_main :
    (∀ a b : String, calculateSimilarity a b = calculateSimilarity b a) ∧
    (∀ x : String, calculateSimilarity x x = mkRat 9 10) := by
  constructor
  · intro a b
    simp only [calculateSimilarity]
    by_cases h1 : columnAliases.lookup a = some b ∨ columnAliases.lookup b = some a
    · rw [if_pos h1, if_pos (Or.symm h1)]
    · rw [if_neg h1]
      conv_rhs => rw [if_neg (fun h => h1 (Or.symm h))]
      by_cases h2 : (includesChars (normalizeField a) (normalizeField b) ||
          includesChars (normalizeField b) (normalizeField a)) = true
      · rw [if_pos h2]
        conv_rhs => rw [if_pos (by rwa [Bool.or_comm] at h2)]
      · rw [if_neg h2]
        conv_rhs => rw [if_neg (by rwa [Bool.or_comm] at h2)]
        rw [Nat.max_comm (normalizeField b).length (normalizeField a).length,
          lev_comm (normalizeField b) (normalizeField a)]
  · intro x
    simp only [calculateSimilarity]
    rw [if_neg (fun h => columnAliases_no_self x (h.elim id id)),
      if_pos (by rw [includesChars_self]; simp)]

/-- `(1 : ℚ) − d/m` for naturals with nonzero `m`, in `mkRat` form. -/
theorem one_sub_natCast_div (d m : ℕ) (hm : m ≠ 0) :
    (1 : ℚ) - (d : ℚ) / (m : ℚ) = mkRat ((m : ℤ) - (d : ℤ)) m := by
  rw [Rat.mkRat_eq_div]
  have hq : (m : ℚ) ≠ 0 := by exact_mod_cast hm
  push_cast
  field_simp

/-- `scoreRow` equals the literal source formula
`1 − distance / Math.max(effectiveCol.length, targetField.length || 1)`
(the denominator is always at least 1). -/
theorem scoreRow_eq_one_sub (e t : String) :
    scoreRow e t =
      1 - (lev (normalizeColName e) (normalizeColName t) : ℚ) /
        ((max e.length (if t.length = 0 then 1 else t.length) : ℕ) : ℚ) := by
  have hm : max e.length (if t.length = 0 then 1 else t.length) ≠ 0 := by
    have h1 : 1 ≤ (if t.length = 0 then 1 else t.length) := by split <;> omega
    omega
  simp only [scoreRow]
  rw [one_sub_natCast_div _ _ hm]

/-- C4: mappings produced by drift detection are partitioned by confidence:
`c ≥ 0.8` lands in `applied_mappings`; `0.5 ≤ c < 0.8` lands in
`quarantined_mappings` and such a column is not used by the row mapper
(`phase2Step` leaves the mapped row unchanged below the 0.8 threshold);
`c < 0.5` lands in `skipped_mappings`; and a column whose best score reaches
0.8 is used (its converted value is written under the best-matching unified
field). -/
theorem c4_main :
    (∀ (prevS curS : SchemaSnap) (v : ℕ) (m : Mapping),
        schemasEqual curS prevS = false →
        m ∈ findMappings prevS curS →
        (AUTO_MAP ≤ m.confidence →
          m ∈ (detectDrift (some prevS) v curS).applied_mappings) ∧
        (QUARANTINE ≤ m.confidence ∧ m.confidence < AUTO_MAP →
          m ∈ (detectDrift (some prevS) v curS).quarantined_mappings) ∧
        (m.confidence < SKIP →
          m ∈ (detectDrift (some prevS) v curS).skipped_mappings)) ∧
    (∀ (mapped : List (String × JsValue)) (col : String × JsValue),
        (bestUnifiedScore col.1).2 < AUTO_MAP →
        phase2Step mapped col = mapped) ∧
    (∀ (mapped : List (String × JsValue)) (col : String × JsValue) (t : String),
        (bestUnifiedScore col.1).1 = some t →
        AUTO_MAP ≤ (bestUnifiedScore col.1).2 →
        phase2Step mapped col = objSet mapped t (convertValueType t col.2)) := by
  refine ⟨?_, ?_, ?_⟩
  · intro prevS curS v m hneq hmem
    simp only [detectDrift, hneq, Bool.false_eq_true, if_false]
    refine ⟨fun h => ?_, fun h => ?_, fun h => ?_⟩ <;>
      · simp only [List.mem_filter]
        exact ⟨hmem, by simp [h]⟩
  · intro mapped col h
    simp only [phase2Step]
    rw [if_neg (not_le.mpr h)]
  · intro mapped col t h1 h2
    simp only [phase2Step]
    rw [if_pos h2, h1]

/-- C4 witness: a concrete drift (`price_usd` renamed to its static alias
`usd_price`, confidence 1) lands in `applied_mappings`, and the concrete
column `"sym"` (best unified match `symbol`, score 0.5, quarantine tier) is
not used by the row mapper. -/
theorem c4_witness :
    schemasEqual [("usd_price", "string")] [("price_usd", "number")] = false ∧
    (⟨"price_usd", "usd_price", 1⟩ : Mapping) ∈
      findMappings [("price_usd", "number")] [("usd_price", "string")] ∧
    AUTO_MAP ≤ (1 : ℚ) ∧
    (⟨"price_usd", "usd_price", 1⟩ : Mapping) ∈
      (detectDrift (some [("price_usd", "number")]) 1
        [("usd_price", "string")]).applied_mappings ∧
    (bestUnifiedScore "sym").2 < AUTO_MAP ∧
    phase2Step [] ("sym", .str "BTC") = [] := by
  refine ⟨by decide, by decide, by decide, ?_, by decide, ?_⟩
  · exact (c4_main.1 [("price_usd", "number")] [("usd_price", "string")] 1
      ⟨"price_usd", "usd_price", 1⟩ (by decide) (by decide)).1 (by decide)
  · exact c4_main.2.1 [] ("sym", .str "BTC") (by decide)

example : rateLimitedRequest 5 ⟨1, 1, 60000, 0, 0, 30000⟩ none 0 =
    some (.httpRequest, 2, ⟨1, 1, 60000, 0, 60000, 30000⟩) := by decide

theorem refill_burstCapacity (l : Limiter) (now : ℕ) :
    (refill l now).burstCapacity = l.burstCapacity := by
  simp only [refill]
  split <;> rfl

theorem refill_retryBackoffMs (l : Limiter) (now : ℕ) :
    (refill l now).retryBackoffMs = l.retryBackoffMs := by
  simp only [refill]
  split <;> rfl

theorem refill_tokens_nonneg (l : Limiter) (now : ℕ) (h : 0 ≤ l.tokens) :
    0 ≤ (refill l now).tokens := by
  simp only [refill]
  split
  · have : (0 : ℤ) ≤ (l.burstCapacity : ℤ) := Int.ofNat_nonneg _
    have : (0 : ℤ) ≤ ((now - l.lastRefill) * l.limit / l.interval : ℕ) :=
      Int.ofNat_nonneg _
    simp only
    omega
  · exact h

theorem refill_tokens_le_burst (l : Limiter) (now : ℕ)
    (h : l.tokens ≤ (l.burstCapacity : ℤ)) :
    (refill l now).tokens ≤ ((refill l now).burstCapacity : ℤ) := by
  rw [refill_burstCapacity]
  simp only [refill]
  split
  · simp only
    omega
  · exact h

/-- When the guard `tokens <= 0` still holds after the lazy refill (with a
positive burst capacity and a nonnegative bucket), the refill was a no-op:
a positive `tokensToAdd` would have left at least one token. -/
theorem refill_eq_self (l : Limiter) (now : ℕ) (hb : 1 ≤ l.burstCapacity)
    (ht : 0 ≤ l.tokens) (h : (refill l now).tokens ≤ 0) : refill l now = l := by
  rcases Nat.lt_or_ge 0 ((now - l.lastRefill) * l.limit / l.interval) with hpos | hz
  · exfalso
    simp only [refill, if_pos hpos] at h
    have h1 : (1 : ℤ) ≤ (l.burstCapacity : ℤ) := by exact_mod_cast hb
    have h2 : (1 : ℤ) ≤ ((now - l.lastRefill) * l.limit / l.interval : ℕ) := by
      exact_mod_cast hpos
    omega
  · simp only [refill]
    rw [if_neg (by omega)]

theorem acquireStep_inv (l : Limiter) (now : ℕ)
    (h0 : 0 ≤ l.tokens) (h1 : l.tokens ≤ (l.burstCapacity : ℤ)) :
    0 ≤ (acquireStep l now).tokens ∧
    (acquireStep l now).tokens ≤ ((acquireStep l now).burstCapacity : ℤ) ∧
    (acquireStep l now).burstCapacity = l.burstCapacity := by
  have hn := refill_tokens_nonneg l now h0
  have hb := refill_tokens_le_burst l now h1
  have hc := refill_burstCapacity l now
  simp only [acquireStep]
  split
  · exact ⟨hn, hb, hc⟩
  · rename_i hgt
    refine ⟨?_, ?_, hc⟩
    · show (0 : ℤ) ≤ (refill l now).tokens - 1
      omega
    · show (refill l now).tokens - 1 ≤ ((refill l now).burstCapacity : ℤ)
      omega

theorem foldl_acquire_inv (times : List ℕ) (l : Limiter)
    (h0 : 0 ≤ l.tokens) (h1 : l.tokens ≤ (l.burstCapacity : ℤ)) :
    0 ≤ (times.foldl acquireStep l).tokens ∧
    (times.foldl acquireStep l).tokens ≤
      ((times.foldl acquireStep l).burstCapacity : ℤ) ∧
    (times.foldl acquireStep l).burstCapacity = l.burstCapacity := by
  induction times generalizing l with
  | nil => exact ⟨h0, h1, rfl⟩
  | cons t ts ih =>
      obtain ⟨a, b, c⟩ := acquireStep_inv l t h0 h1
      obtain ⟨x, y, z⟩ := ih (acquireStep l t) a b
      exact ⟨x, y, z.trans c⟩

/-- C6: the per-source bucket starts with `tokens = burstCapacity` and the
fixed 60-second interval; an admission consumes exactly one token off the
refilled bucket; and after any sequence of acquire attempts (each one a lazy
refill `⌊(now − lastRefill)/interval × limit⌋` capped at `burstCapacity`,
then a conditional consume) the bucket holds between 0 and `burstCapacity`
tokens. -/
theorem c6_main :
    (∀ rpm burst backoff now0 : ℕ,
        (initLimiter rpm burst backoff now0).tokens = (burst : ℤ) ∧
        (initLimiter rpm burst backoff now0).interval = 60000) ∧
    (∀ (l : Limiter) (now : ℕ), 0 < (refill l now).tokens →
        (acquireStep l now).tokens = (refill l now).tokens - 1) ∧
    (∀ (rpm burst backoff now0 : ℕ) (times : List ℕ),
        0 ≤ (times.foldl acquireStep (initLimiter rpm burst backoff now0)).tokens ∧
        (times.foldl acquireStep (initLimiter rpm burst backoff now0)).tokens ≤
          (burst : ℤ)) := by
  refine ⟨fun rpm burst backoff now0 => ⟨rfl, rfl⟩, ?_, ?_⟩
  · intro l now h
    simp only [acquireStep]
    rw [if_neg (by omega)]
  · intro rpm burst backoff now0 times
    obtain ⟨x, y, z⟩ := foldl_acquire_inv times (initLimiter rpm burst backoff now0)
      (Int.ofNat_nonneg _) le_rfl
    rw [z] at y
    exact ⟨x, y⟩

/-- C6 witness: at a concrete bucket (quota 1/min, burst 1, empty bucket,
last refill at 0) an acquire at t = 60000 refills one token and the
admission consumes exactly it. -/
theorem c6_witness :
    0 < (refill ⟨1, 1, 60000, 0, 0, 1000⟩ 60000).tokens ∧
    (acquireStep ⟨1, 1, 60000, 0, 0, 1000⟩ 60000).tokens =
      (refill ⟨1, 1, 60000, 0, 0, 1000⟩ 60000).tokens - 1 := by
  exact ⟨by decide, c6_main.2.1 ⟨1, 1, 60000, 0, 0, 1000⟩ 60000 (by decide)⟩

/-- C5 counterexample: a concrete throttled invocation (limit 1/min, burst
1, empty bucket, backoff 30000 ms, no cache) retries the token check twice
before succeeding — more than the "at most once" the claim states. -/
theorem c5_counterexample :
    (rateLimitedRequest 5 ⟨1, 1, 60000, 0, 0, 30000⟩ none 0).map
      (fun r => r.2.1) = some 2 ∧ ¬ (2 ≤ 1) := by
  exact ⟨by decide, by decide⟩

/-- One unfolding of `rateLimitedRequest` at positive fuel. -/
theorem rateLimitedRequest_succ (fuel : ℕ) (l : Limiter)
    (cache : Option (ℕ × ℕ)) (now : ℕ) :
    rateLimitedRequest (fuel + 1) l cache now =
      if (refill l now).tokens ≤ 0 then
        match cacheGet cache now with
        | some v => some (.fromCache v, 0, refill l now)
        | none =>
            match rateLimitedRequest fuel (refill l now) cache
                (now + (refill l now).retryBackoffMs) with
            | none => none
            | some (o, r, l'') => some (o, r + 1, l'')
      else
        some (.httpRequest, 0,
          { refill l now with tokens := (refill l now).tokens - 1 }) := rfl

theorem rateLimited_succeeds :
    ∀ (k : ℕ) (l : Limiter) (now : ℕ),
      1 ≤ l.limit → 1 ≤ l.burstCapacity → 1 ≤ l.interval → 0 ≤ l.tokens →
      l.lastRefill ≤ now →
      l.interval ≤ (now - l.lastRefill) + k * l.retryBackoffMs →
      (rateLimitedRequest (k + 1) l none now).isSome = true := by
  intro k
  induction k with
  | zero =>
      intro l now hlim hb hint ht hlr hgap
      simp only [Nat.zero_mul, Nat.add_zero] at hgap
      have hpos : 0 < (now - l.lastRefill) * l.limit / l.interval := by
        have h1 : l.interval * 1 ≤ (now - l.lastRefill) * l.limit :=
          Nat.mul_le_mul hgap hlim
        exact Nat.div_pos (by omega) (by omega)
      have h1 : (1 : ℤ) ≤ (refill l now).tokens := by
        simp only [refill, if_pos hpos]
        have hb' : (1 : ℤ) ≤ (l.burstCapacity : ℤ) := by exact_mod_cast hb
        have hp' : (1 : ℤ) ≤ ((now - l.lastRefill) * l.limit / l.interval : ℕ) := by
          exact_mod_cast hpos
        omega
      rw [rateLimitedRequest_succ, if_neg (by omega)]
      rfl
  | succ k ih =>
      intro l now hlim hb hint ht hlr hgap
      by_cases hz : (refill l now).tokens ≤ 0
      · have heq := refill_eq_self l now hb ht hz
        rw [rateLimitedRequest_succ, if_pos hz, heq]
        have hrec := ih l (now + l.retryBackoffMs) hlim hb hint ht (by omega)
          (by
            have hsub : now + l.retryBackoffMs - l.lastRefill =
                (now - l.lastRefill) + l.retryBackoffMs := by omega
            rw [hsub]
            rw [Nat.succ_mul] at hgap
            omega)
        rcases hx : rateLimitedRequest (k + 1) l none (now + l.retryBackoffMs) with
          _ | ⟨o, r, l''⟩
        · rw [hx] at hrec
          simp at hrec
        · simp only [cacheGet, hx]
          rfl
      · rw [rateLimitedRequest_succ, if_neg hz]
        rfl

/-- C5 (amended): a rate-limited invocation that finds no tokens and no
cached payload sleeps `retryBackoffMs` and then retries the token check by
re-invoking itself recursively — the retry loop lives inside the rate
limiter (each pass adds one to the retry count), not in the caller, and it
can run more than once; with a positive quota, burst capacity and backoff
the recursion terminates, within `interval + 1` nested attempts. -/
theorem c5_main :
    (∀ (l : Limiter) (cache : Option (ℕ × ℕ)) (now : ℕ) (fuel : ℕ),
        (refill l now).tokens ≤ 0 → cacheGet cache now = none →
        rateLimitedRequest (fuel + 1) l cache now =
          (rateLimitedRequest fuel (refill l now) cache
              (now + (refill l now).retryBackoffMs)).map
            (fun r => (r.1, r.2.1 + 1, r.2.2))) ∧
    (∀ (l : Limiter) (now : ℕ),
        1 ≤ l.limit → 1 ≤ l.burstCapacity → 1 ≤ l.interval →
        1 ≤ l.retryBackoffMs → 0 ≤ l.tokens → l.lastRefill ≤ now →
        (rateLimitedRequest (l.interval + 1) l none now).isSome = true) := by
  constructor
  · intro l cache now fuel hz hcache
    simp only [rateLimitedRequest]
    rw [if_pos hz, hcache]
    rcases hx : rateLimitedRequest fuel (refill l now) cache
        (now + (refill l now).retryBackoffMs) with _ | ⟨o, r, l''⟩ <;>
      simp [hx]
  · intro l now hlim hb hint hback ht hlr
    refine rateLimited_succeeds l.interval l now hlim hb hint ht hlr ?_
    have h1 : l.interval ≤ l.interval * l.retryBackoffMs := by
      calc l.interval = l.interval * 1 := by omega
        _ ≤ l.interval * l.retryBackoffMs := Nat.mul_le_mul_left _ hback
    omega

/-- C5 witness: at a concrete throttled state (empty bucket, no cache) one
invocation step is exactly "sleep 30000 ms, recurse, count one more retry",
and with fuel `interval + 1` the invocation succeeds. -/
theorem c5_witness :
    ((refill ⟨1, 1, 60000, 0, 0, 30000⟩ 0).tokens ≤ 0 ∧
      cacheGet none 0 = none ∧
      rateLimitedRequest 2 ⟨1, 1, 60000, 0, 0, 30000⟩ none 0 =
        (rateLimitedRequest 1 (refill ⟨1, 1, 60000, 0, 0, 30000⟩ 0) none
            (0 + (refill ⟨1, 1, 60000, 0, 0, 30000⟩ 0).retryBackoffMs)).map
          (fun r => (r.1, r.2.1 + 1, r.2.2))) ∧
    (rateLimitedRequest (60000 + 1) ⟨1, 1, 60000, 0, 0, 30000⟩ none 0).isSome =
      true := by
  refine ⟨⟨by decide, rfl, ?_⟩, ?_⟩
  · exact c5_main.1 ⟨1, 1, 60000, 0, 0, 30000⟩ none 0 1 (by decide) rfl
  · exact c5_main.2 ⟨1, 1, 60000, 0, 0, 30000⟩ 0 (by decide) (by decide)
      (by decide) (by decide) (by decide) (by decide)

example : (parseIso "2024-01-01T00:00:00Z").isSome = true := by decide

example : parseIso "2024-01-01T00:00:00Z" = some (mkRat (1704067200000 * 1) 1) := by decide

theorem joiDateIso_some_shape (v : JsValue) (ts : ℚ) (h : joiDateIso v = some ts) :
    (∃ ms, v = .date ms) ∨ (∃ s, v = .str s ∧ (parseIso s).isSome = true) := by
  cases v with
  | date ms => exact Or.inl ⟨ms, rfl⟩
  | str s =>
      refine Or.inr ⟨s, rfl, ?_⟩
      rw [show parseIso s = some ts from h]
      rfl
  | undefined => exact absurd h (by simp [joiDateIso])
  | jnull => exact absurd h (by simp [joiDateIso])
  | num q => exact absurd h (by simp [joiDateIso])
  | bool b => exact absurd h (by simp [joiDateIso])
  | obj f => exact absurd h (by simp [joiDateIso])

/-- C9 counterexample: a record meeting every condition of the claim — with
`timestamp` given as epoch seconds (`1704067200`, a parsable instant) — is
nonetheless rejected by `unifiedSchema.validate`, because `Joi.date().iso()`
rejects plain numbers; so "epoch-seconds accepted" is false. -/
theorem c9_counterexample :
    (validateUnified ⟨.str "BTC", .str "Bitcoin", .num 50000, .num 1000,
      .jnull, .jnull, .num 1704067200, .str "coinpaprika", .obj []⟩).isNone =
      true := by
  decide

/-- C9 (amended): validation accepts a record only if `price_usd` is
strictly positive, `volume_24h` is nonnegative, `source` is one of the three
configured identifiers, and `timestamp` is a `Date` instance or an ISO-8601
date string; a plain epoch-seconds number for `timestamp` is always
rejected by the `iso()` format (only ISO strings and `Date`s parse), and a
record violating any condition yields a validation error. -/
theorem c9_main :
    (∀ (r : RecordInput) (v : ValidRecord), validateUnified r = some v →
        0 < v.price_usd ∧ 0 ≤ v.volume_24h ∧ v.source ∈ validSources ∧
        ((∃ ms, r.timestamp = .date ms) ∨
          (∃ s, r.timestamp = .str s ∧ (parseIso s).isSome = true))) ∧
    (∀ (r : RecordInput) (q : ℚ), r.timestamp = .num q →
        validateUnified r = none) := by
  constructor
  · intro r v h
    unfold validateUnified at h
    repeat' split at h
    any_goals exact Option.noConfusion h
    obtain rfl := Option.some.inj h
    refine ⟨by assumption, by assumption, by assumption,
      joiDateIso_some_shape _ _ (by assumption)⟩
  · intro r q hts
    rcases h1 : joiString r.symbol with _ | s1
    · simp [validateUnified, h1]
    rcases h2 : joiString r.name with _ | s2
    · simp [validateUnified, h1, h2]
    rcases h3 : joiNumber r.price_usd with _ | p
    · simp [validateUnified, h1, h2, h3]
    by_cases hp : 0 < p
    case neg => simp [validateUnified, h1, h2, h3, hp]
    rcases h4 : joiNumber r.volume_24h with _ | vol
    · simp [validateUnified, h1, h2, h3, hp, h4]
    by_cases hvn : 0 ≤ vol
    case neg => simp [validateUnified, h1, h2, h3, hp, h4, hvn]
    rcases h5 : joiNumberMin0OrNull r.market_cap with _ | mc
    · simp [validateUnified, h1, h2, h3, hp, h4, hvn, h5]
    rcases h6 : joiNumberOrNull r.percent_change_24h with _ | pct
    · simp [validateUnified, h1, h2, h3, hp, h4, hvn, h5, h6]
    simp [validateUnified, h1, h2, h3, hp, h4, hvn, h5, h6, hts, joiDateIso]

/-- C9 witness: a concrete record with a `Date` timestamp is accepted, and
the theorem's necessary conditions hold of its validated form. -/
theorem c9_witness :
    0 < (50000 : ℚ) ∧ 0 ≤ (1000 : ℚ) ∧ "coinpaprika" ∈ validSources ∧
    ((∃ ms, (JsValue.date 1704067200000) = .date ms) ∨
      (∃ s, (JsValue.date 1704067200000) = .str s ∧
        (parseIso s).isSome = true)) := by
  exact c9_main.1
    ⟨.str "BTC", .str "Bitcoin", .num 50000, .num 1000, .jnull, .jnull,
      .date 1704067200000, .str "coinpaprika", .obj []⟩
    ⟨"BTC", "Bitcoin", 50000, 1000, none, none, 1704067200000, "coinpaprika", []⟩
    rfl

theorem foldl_processRecord_skipped_some (w : ℚ) (records : List RecordInput) :
    ∀ acc : LoadOutcome,
      (records.foldl (processRecord (some w)) acc).skipped =
        acc.skipped ++
          (records.filterMap validateUnified).filter (fun v => v.timestamp ≤ w) := by
  induction records with
  | nil => intro acc; simp
  | cons r rs ih =>
      intro acc
      simp only [List.foldl_cons, List.filterMap_cons]
      cases hv : validateUnified r with
      | none =>
          simp only [processRecord, hv]
          exact ih _
      | some v =>
          simp only [processRecord, hv]
          by_cases hts : v.timestamp ≤ w
          · rw [if_pos hts, ih]
            simp [List.filter_cons, hts]
          · rw [if_neg hts, ih]
            simp [List.filter_cons, hts]

theorem foldl_processRecord_skipped_none (records : List RecordInput) :
    ∀ acc : LoadOutcome,
      (records.foldl (processRecord none) acc).skipped = acc.skipped := by
  induction records with
  | nil => intro acc; rfl
  | cons r rs ih =>
      intro acc
      simp only [List.foldl_cons]
      cases hv : validateUnified r with
      | none =>
          simp only [processRecord, hv]
          exact ih _
      | some v =>
          simp only [processRecord, hv]
          exact ih _

/-- C7: watermark skipping is record-wise: with a watermark present,
exactly the valid records whose timestamp is `≤` the watermark end up
skipped (in order, independent of their position among invalid or newer
records); with the watermark absent, nothing is skipped. -/
theorem c7_main :
    (∀ (w : ℚ) (records : List RecordInput),
        (processRecords (some w) records).skipped =
          (records.filterMap validateUnified).filter
            (fun v => v.timestamp ≤ w)) ∧
    (∀ records : List RecordInput, (processRecords none records).skipped = []) := by
  constructor
  · intro w records
    rw [processRecords, foldl_processRecord_skipped_some]
    rfl
  · intro records
    rw [processRecords, foldl_processRecord_skipped_none]

/-- C10: `convertToNumber` yields `0` for `undefined`, `null`, the empty
string, any non-string non-number, and any string whose cleaned form does
not parse; a number passes through; both extractor record shapes therefore
carry every numeric field as a present number, and a missing source price
becomes `price_usd = 0`. -/
theorem c10_main :
    (∀ v : JsValue,
        v = .undefined ∨ v = .jnull ∨ v = .str "" ∨
          ((∀ q, v ≠ .num q) ∧ (∀ s, v ≠ .str s)) →
        convertToNumber v = 0) ∧
    (∀ s : String,
        jsParseFloat (String.mk (s.toList.filter (fun c => ¬ isStrippedChar c))) =
          none →
        convertToNumber (.str s) = 0) ∧
    (∀ q : ℚ, convertToNumber (.num q) = q) ∧
    (∀ (coin : JsValue) (now : ℚ),
        (mapCoinPaprika coin now).price_usd =
          .num (convertToNumber (jsGetPath coin ["quotes", "USD", "price"])) ∧
        (mapCoinPaprika coin now).volume_24h =
          .num (convertToNumber (jsGetPath coin ["quotes", "USD", "volume_24h"])) ∧
        (mapCoinPaprika coin now).market_cap =
          .num (convertToNumber (jsGetPath coin ["quotes", "USD", "market_cap"])) ∧
        (mapCoinPaprika coin now).percent_change_24h =
          .num (convertToNumber
            (jsGetPath coin ["quotes", "USD", "percent_change_24h"]))) ∧
    (∀ (coin : JsValue) (now : ℚ),
        jsGetPath coin ["quotes", "USD", "price"] = .undefined →
        (mapCoinPaprika coin now).price_usd = .num 0) ∧
    (∀ (row : List (String × JsValue)) (now : ℚ),
        jsGet (.obj (mapCsvRowToUnifiedSchema row)) "price_usd" = .undefined →
        (csvNormalize row now).price_usd = .num 0) := by
  refine ⟨?_, ?_, fun q => rfl, fun coin now => ⟨rfl, rfl, rfl, rfl⟩, ?_, ?_⟩
  · rintro v (rfl | rfl | rfl | ⟨hq, hs⟩)
    · rfl
    · rfl
    · rfl
    · cases v with
      | num q => exact absurd rfl (hq q)
      | str s => exact absurd rfl (hs s)
      | undefined => rfl
      | jnull => rfl
      | bool b => rfl
      | date ms => rfl
      | obj f => rfl
  · intro s h
    by_cases hs : s = ""
    · subst hs; rfl
    · simp only [convertToNumber]
      split
      · rfl
      · rename_i q heq
        rw [h] at heq
        exact Option.noConfusion heq
  · intro coin now h
    simp only [mapCoinPaprika, h]
    rfl
  · intro row now h
    simp only [csvNormalize, h]
    rfl

/-- C10 witness: concrete inputs for each guarded clause — an unparseable
string converts to 0, a coin with no `quotes.USD.price` path yields
`price_usd = 0`, and an empty CSV row maps to `price_usd = 0`. -/
theorem c10_witness :
    convertToNumber (.str "abc") = 0 ∧
    (mapCoinPaprika (.obj []) 0).price_usd = .num 0 ∧
    (csvNormalize [] 0).price_usd = .num 0 := by
  refine ⟨c10_main.2.1 "abc" (by decide), ?_, ?_⟩
  · exact c10_main.2.2.2.2.1 (.obj []) 0 rfl
  · exact c10_main.2.2.2.2.2 [] 0 rfl

example : runBatches (fun _ => false) ([10, 20, 30, 40, 50, 60] : List ℕ) 0 =
    ([([10, 20, 30, 40, 50], 5), ([60], 6)], none) := by decide

example : runBatches (fun i => i == 5) ([10, 20, 30, 40, 50, 60] : List ℕ) 0 =
    ([([10, 20, 30, 40, 50], 5)], some 5) := by decide

theorem runBatchesFuel_nil (fails : ℕ → Bool) (fuel i : ℕ) :
    runBatchesFuel fails fuel ([] : List α) i = ([], none) := by
  cases fuel <;> rfl

theorem runBatchesFuel_get (fails : ℕ → Bool) :
    ∀ (k fuel : ℕ) (rem : List α) (i : ℕ), rem.length ≤ fuel →
      ∀ e, (runBatchesFuel fails fuel rem i).1.get? k = some e →
        e.1 = (rem.drop (BATCH_SIZE * k)).take BATCH_SIZE ∧
        e.2 = (i + BATCH_SIZE * k) + e.1.length ∧
        e.2 = i + (((runBatchesFuel fails fuel rem i).1.take (k + 1)).map
          (fun p => p.1.length)).sum := by
  intro k
  induction k with
  | zero =>
      intro fuel rem i hf e he
      match fuel, rem with
      | 0, rem =>
          rw [show rem = [] from List.eq_nil_of_length_eq_zero (by omega)] at he
          simp [runBatchesFuel_nil] at he
      | fuel + 1, [] => simp [runBatchesFuel_nil] at he
      | fuel + 1, a :: t =>
          by_cases hfail : fails i
          · simp [runBatchesFuel, hfail] at he
          · simp only [runBatchesFuel, hfail, if_false, Bool.false_eq_true,
              List.get?] at he
            obtain rfl := Option.some.inj he
            refine ⟨rfl, by simp [BATCH_SIZE], ?_⟩
            simp only [runBatchesFuel, hfail, if_false, Bool.false_eq_true]
            simp [List.take]
  | succ k ih =>
      intro fuel rem i hf e he
      match fuel, rem with
      | 0, rem =>
          rw [show rem = [] from List.eq_nil_of_length_eq_zero (by omega)] at he
          simp [runBatchesFuel_nil] at he
      | fuel + 1, [] => simp [runBatchesFuel_nil] at he
      | fuel + 1, a :: t =>
          by_cases hfail : fails i
          · simp [runBatchesFuel, hfail] at he
          · simp only [runBatchesFuel, hfail, if_false, Bool.false_eq_true,
              List.get?] at he
            have hlen : ((a :: t).drop BATCH_SIZE).length ≤ fuel := by
              simp only [List.length_drop, List.length_cons, BATCH_SIZE] at hf ⊢
              omega
            obtain ⟨h1, h2, h3⟩ :=
              ih fuel ((a :: t).drop BATCH_SIZE) (i + BATCH_SIZE) hlen e he
            have hdd : ((a :: t).drop BATCH_SIZE).drop (BATCH_SIZE * k) =
                (a :: t).drop (BATCH_SIZE * (k + 1)) := by
              rw [List.drop_drop]
              congr 1
              ring
            have htl : (runBatchesFuel fails fuel ((a :: t).drop BATCH_SIZE)
                (i + BATCH_SIZE)).1 ≠ [] := by
              intro hnil
              rw [hnil] at he
              simp at he
            have hfive : ((a :: t).take BATCH_SIZE).length = BATCH_SIZE := by
              rcases hx : (a :: t).drop BATCH_SIZE with _ | ⟨b, u⟩
              · exfalso
                apply htl
                rw [hx]
                exact congrArg Prod.fst (runBatchesFuel_nil fails fuel _)
              · have hlt : BATCH_SIZE < (a :: t).length := by
                  by_contra hc
                  push_neg at hc
                  rw [List.drop_eq_nil_of_le hc] at hx
                  exact List.noConfusion hx
                rw [List.length_take]
                omega
            refine ⟨by rw [h1, hdd], by rw [h2]; ring, ?_⟩
            simp only [runBatchesFuel, hfail, if_false, Bool.false_eq_true]
            rw [List.take_succ_cons, List.map_cons, List.sum_cons, h3, hfive]
            ring

theorem runBatchesFuel_flatten :
    ∀ (fuel : ℕ) (rem : List α) (i : ℕ), rem.length ≤ fuel →
      ((runBatchesFuel (fun _ => false) fuel rem i).1.map Prod.fst).flatten = rem := by
  intro fuel
  induction fuel with
  | zero =>
      intro rem i hf
      rw [show rem = [] from List.eq_nil_of_length_eq_zero (by omega)]
      rfl
  | succ fuel ih =>
      intro rem i hf
      cases rem with
      | nil => rfl
      | cons a t =>
          simp only [runBatchesFuel, Bool.false_eq_true, if_false, List.map_cons,
            List.flatten_cons]
          rw [ih ((a :: t).drop BATCH_SIZE) (i + BATCH_SIZE)
            (by simp only [List.length_drop, List.length_cons, BATCH_SIZE] at hf ⊢; omega)]
          exact List.take_append_drop _ _

theorem runBatchesFuel_fail_ge (fails : ℕ → Bool) :
    ∀ (fuel : ℕ) (rem : List α) (i fi : ℕ),
      (runBatchesFuel fails fuel rem i).2 = some fi → i ≤ fi := by
  intro fuel
  induction fuel with
  | zero => intro rem i fi h; simp [runBatchesFuel] at h
  | succ fuel ih =>
      intro rem i fi h
      cases rem with
      | nil => simp [runBatchesFuel] at h
      | cons a t =>
          by_cases hfail : fails i
          · simp [runBatchesFuel, hfail] at h
            omega
          · simp only [runBatchesFuel, hfail, if_false, Bool.false_eq_true] at h
            have := ih ((a :: t).drop BATCH_SIZE) (i + BATCH_SIZE) fi h
            omega

theorem runBatchesFuel_save_le_fail (fails : ℕ → Bool) :
    ∀ (fuel : ℕ) (rem : List α) (i fi : ℕ),
      (runBatchesFuel fails fuel rem i).2 = some fi →
      ∀ e ∈ (runBatchesFuel fails fuel rem i).1, e.2 ≤ fi := by
  intro fuel
  induction fuel with
  | zero => intro rem i fi h; simp [runBatchesFuel] at h
  | succ fuel ih =>
      intro rem i fi h e he
      cases rem with
      | nil => simp [runBatchesFuel] at h
      | cons a t =>
          by_cases hfail : fails i
          · simp [runBatchesFuel, hfail] at he
          · simp only [runBatchesFuel, hfail, if_false, Bool.false_eq_true,
              List.mem_cons] at h he
            have hge := runBatchesFuel_fail_ge fails fuel ((a :: t).drop BATCH_SIZE)
              (i + BATCH_SIZE) fi h
            rcases he with rfl | he
            · have hlen : ((a :: t).take BATCH_SIZE).length ≤ BATCH_SIZE := by
                rw [List.length_take]
                omega
              show i + ((a :: t).take BATCH_SIZE).length ≤ fi
              omega
            · exact ih ((a :: t).drop BATCH_SIZE) (i + BATCH_SIZE) fi h e he

/-- C1 counterexample: in the legacy `src/etl/orchestration.js` variant of
`processSourceWithCheckpoint` (the one imported by the HTTP server and the
cron scheduler), the checkpoint saved after the first batch of a concrete
six-record sequence is 4 — the highest processed index — not the count of
records consumed (5), so the claim as stated over every save in the
repository fails. -/
theorem c1_counterexample :
    (runBatchesLegacy ([10, 20, 30, 40, 50, 60] : List ℕ) 0).get? 0 =
      some ([10, 20, 30, 40, 50], 4) ∧
    ¬ ((4 : ℕ) = 0 + ([10, 20, 30, 40, 50] : List ℕ).length) := by
  exact ⟨by decide, by decide⟩

/-- C1: the checkpoint saved after the successful batch number `k` of a
pass starting at index `c` is its start index plus its length (`i + |batch|`
with `i = c + BATCH_SIZE·k` and `batch = data[i .. i+BATCH_SIZE)`), which
equals the count of records consumed so far (`c` plus the total length of
the batches processed so far, one past the last processed index); and a
pass with no failures starting at any checkpoint `c` consumes exactly
`data[c..]`, so a later pass resumes at `sequence[lastProcessedIndex..]`. -/
theorem c1_main :
    (∀ (α : Type) (fails : ℕ → Bool) (data : List α) (c k : ℕ)
        (e : List α × ℕ),
        (runBatches fails data c).1.get? k = some e →
        e.1 = (data.drop (c + BATCH_SIZE * k)).take BATCH_SIZE ∧
        e.2 = (c + BATCH_SIZE * k) + e.1.length ∧
        e.2 = c + (((runBatches fails data c).1.take (k + 1)).map
          (fun p => p.1.length)).sum) ∧
    (∀ (α : Type) (data : List α) (c : ℕ),
        ((runBatches (fun _ => false) data c).1.map Prod.fst).flatten =
          data.drop c) := by
  constructor
  · intro α fails data c k e he
    obtain ⟨h1, h2, h3⟩ := runBatchesFuel_get fails k (data.drop c).length
      (data.drop c) c le_rfl e he
    refine ⟨?_, h2, h3⟩
    rw [h1, List.drop_drop]
  · intro α data c
    exact runBatchesFuel_flatten (data.drop c).length (data.drop c) c le_rfl

/-- C1 witness: on a concrete six-record sequence from checkpoint 0, the
second batch's save equals 6 — the count of records consumed — and a
failure-free pass from checkpoint 5 consumes exactly the suffix from 5. -/
theorem c1_witness :
    (([60], 6) : List ℕ × ℕ).1 =
        (([10, 20, 30, 40, 50, 60] : List ℕ).drop (0 + BATCH_SIZE * 1)).take
          BATCH_SIZE ∧
      (([60], 6) : List ℕ × ℕ).2 = (0 + BATCH_SIZE * 1) + ([60] : List ℕ).length ∧
      (([60], 6) : List ℕ × ℕ).2 =
        0 + (((runBatches (fun _ => false) ([10, 20, 30, 40, 50, 60] : List ℕ)
          0).1.take 2).map (fun p => p.1.length)).sum := by
  exact c1_main.1 ℕ (fun _ => false) [10, 20, 30, 40, 50, 60] 0 1
    ([60], 6) (by decide)

/-- C2: the run ends `success` with its checkpoints cleared exactly when
`allFailedBatches` is empty; `allFailedBatches` is empty exactly when no
source's batch loop failed; and on a source that failed, every checkpoint
that was saved is at most the failing batch's start index — no checkpoint
is saved for the failing batch. -/
theorem c2_main :
    ∀ (α : Type) (ckpt : String → ℕ)
      (srcs : List (String × List α × (ℕ → Bool))),
      ((runStatus (allFailedBatches ckpt srcs) = .success ∧
          checkpointsCleared (allFailedBatches ckpt srcs) = true) ↔
        allFailedBatches ckpt srcs = []) ∧
      (allFailedBatches ckpt srcs = [] ↔
        ∀ s ∈ srcs, (runBatches s.2.2 s.2.1 (ckpt s.1)).2 = none) ∧
      (∀ s ∈ srcs, ∀ fi, (runBatches s.2.2 s.2.1 (ckpt s.1)).2 = some fi →
        ∀ e ∈ (runBatches s.2.2 s.2.1 (ckpt s.1)).1, e.2 ≤ fi) := by
  intro α ckpt srcs
  refine ⟨?_, ?_, ?_⟩
  · constructor
    · rintro ⟨hs, hc⟩
      exact List.isEmpty_iff.mp (by simpa [checkpointsCleared] using hc)
    · intro h
      rw [runStatus, checkpointsCleared, h]
      exact ⟨rfl, rfl⟩
  · rw [allFailedBatches, List.filterMap_eq_nil_iff]
    constructor
    · intro h s hs
      have := h s hs
      simpa [Option.map_eq_none] using this
    · intro h s hs
      simp [h s hs]
  · intro s hs fi hfi e he
    exact runBatchesFuel_save_le_fail s.2.2 _ _ _ fi hfi e he

/-- C2 witness: a concrete pipeline whose only source fails at batch index
5 is not a cleared success, and its sole saved checkpoint (5) does not
cover the failing batch. -/
theorem c2_witness :
    ¬ (runStatus (allFailedBatches (fun _ => 0)
        [("coinpaprika", ([10, 20, 30, 40, 50, 60] : List ℕ),
          fun i => i == 5)]) = .success ∧
      checkpointsCleared (allFailedBatches (fun _ => 0)
        [("coinpaprika", ([10, 20, 30, 40, 50, 60] : List ℕ),
          fun i => i == 5)]) = true) ∧
    (([10, 20, 30, 40, 50] : List ℕ), 5).2 ≤ 5 := by
  constructor
  · intro h
    have := (c2_main ℕ (fun _ => 0)
      [("coinpaprika", [10, 20, 30, 40, 50, 60], fun i => i == 5)]).1.mp h
    simp only [allFailedBatches] at this
    exact absurd this (by decide)
  · exact (c2_main ℕ (fun _ => 0)
      [("coinpaprika", [10, 20, 30, 40, 50, 60], fun i => i == 5)]).2.2
      ("coinpaprika", [10, 20, 30, 40, 50, 60], fun i => i == 5)
      (List.Mem.head _) 5 (by decide) ([10, 20, 30, 40, 50], 5) (by decide)

/-- C8 counterexample: on the success path the checkpoint clear does NOT
precede the run-ledger write — the ledger entry is written at position 2
and the clear happens after it, at position 3. -/
theorem c8_counterexample :
    runTailEvents false =
      [.writeSummary, .observeMetrics, .writeLedger, .clearCheckpoints] ∧
    ¬ ((runTailEvents false).indexOf RunEvent.clearCheckpoints <
        (runTailEvents false).indexOf RunEvent.writeLedger) := by
  exact ⟨by decide, by decide⟩

/-- C8 (amended): on the success path the run-ledger entry is written
before the checkpoint clear for the run's `runId` — `RunLedger.writeEntry`
precedes `CheckpointStore.clear`, the opposite of the claimed order (and on
the partial-success path no clear happens at all). -/
theorem c8_main :
    ∀ b : Bool,
      (runTailEvents b).indexOf RunEvent.writeLedger <
        (runTailEvents b).indexOf RunEvent.clearCheckpoints ∧
      (b = false → runTailEvents b =
        [.writeSummary, .observeMetrics, .writeLedger, .clearCheckpoints]) ∧
      (b = true → runTailEvents b =
        [.writeSummary, .observeMetrics, .writeLedger]) := by
  intro b
  cases b <;> refine ⟨by decide, by decide, by decide⟩

/-- C8 witness: on the concrete success-path trace the ledger write (index
2) precedes the checkpoint clear (index 3). -/
theorem c8_witness :
    (runTailEvents false).indexOf RunEvent.writeLedger <
      (runTailEvents false).indexOf RunEvent.clearCheckpoints ∧
    runTailEvents false =
      [.writeSummary, .observeMetrics, .writeLedger, .clearCheckpoints] :=
  ⟨(c8_main false).1, (c8_main false).2.1 rfl⟩

example : convertToNumber (.str "abc") = 0 := by decide

example : convertToNumber (.str "1.5e2") = 150 := by decide

example : convertToNumber (.str "-2.5") = mkRat (-5) 2 := by decide

example : convertToNumber .undefined = 0 := by decide

example : convertToNumber (.obj []) = 0 := by decide

end EtlService


